import Mathlib

/-!
Verification of the observable model container in `src/lib/Model.ts`
(`createModel`): a typed single-value store with subscription, three write
paths (`set`, `update`, `mutate`), pluggable async persistence (`loadFn`,
`saveFn`) and a one-shot initialization promise.

Shallow embedding conventions:
* JavaScript values handled by the container are modelled by `JSVal`
  (undefined, booleans, integers, strings, plain objects as ordered
  association lists of own enumerable fields).  JS truthiness is `truthy`.
* The svelte `writable` store is the spec's external "Observable
  Primitive": `set` replaces the value and synchronously notifies
  subscribers.  A commit is recorded as a `notify` event in an event trace.
* Caller-supplied adapter functions are opaque at the boundary: `saveFn`
  and `mutateFn` are modelled by their presence (`Option Unit`) plus an
  event recording each invocation together with the argument passed;
  `loadFn` is modelled by presence plus the value its promise resolves to.
* `console.warn` (always immediately followed in the source by a
  `console.trace` with the same text) is recorded as a single `warn`
  event carrying the message.
* The async lifecycle is single-threaded: `await` of the load promise
  resumes immediately with the modelled result, so initialization is a
  pure function from options to a final state plus the settled outcome of
  the `INITIALIZED` promise (`Except Unit JSVal`: `ok` = resolved,
  `error` = rejected with `undefined`).
* A thrown TypeError (the `in` operator applied to a non-object) is an
  `Except.error`; svelte's `update` applies `set` to the callback result,
  so a throw inside the callback leaves the store value unchanged.
-/

/-- Model of a JavaScript value as handled by the container: `undefined`,
primitives, or a plain object given by its own enumerable string-keyed
fields in insertion order (keys are unique in a JS object). -/
inductive JSVal where
  | undef : JSVal
  | bool (b : Bool) : JSVal
  | num (n : Int) : JSVal
  | str (s : String) : JSVal
  | obj (fields : List (String × JSVal)) : JSVal

/-- JS truthiness (`!data` in the source is `!truthy data`): `undefined`,
`false`, `0`, and `""` are falsy; every object is truthy. -/
def truthy : JSVal → Bool
  | .undef => false
  | .bool b => b
  | .num n => n != 0
  | .str s => s != ""
  | .obj _ => true

/-- Lookup of an own field (`v[k]` read) in an object's field list. -/
def getField : List (String × JSVal) → String → Option JSVal
  | [], _ => none
  | (k', x) :: rest, k => if k' = k then some x else getField rest k

/-- Own-key existence, the `k in v` test on a plain object. -/
def hasField (fs : List (String × JSVal)) (k : String) : Bool :=
  (getField fs k).isSome

/-- Field assignment `v[k] = x` on an existing key: the property keeps its
slot; assignment to an absent key would append, but the source only assigns
keys that passed the `in` test. -/
def setField : List (String × JSVal) → String → JSVal → List (String × JSVal)
  | [], _, _ => []
  | (k', x') :: rest, k, x =>
    if k' = k then (k', x) :: rest else (k', x') :: setField rest k x

/-- Message of the TypeError thrown by `k in v` when `v` is not an object
(in particular when `v` is `undefined`). -/
def inOpTypeError : String :=
  "TypeError: cannot use 'in' operator to search for a key in a non-object"

/-- The `k in v` test: defined on objects, throws a TypeError otherwise. -/
def jsHasKey : JSVal → String → Except String Bool
  | .obj fs, k => .ok (hasField fs k)
  | _, _ => .error inOpTypeError

/-- `v[k] = x` at the value level (only reached when `v` is an object). -/
def jsSetKey : JSVal → String → JSVal → JSVal
  | .obj fs, k, x => .obj (setField fs k x)
  | v, _, _ => v

/-- Observable side effects of the container, in program order:
subscriber notification by the store's `set`, a `saveFn` call, a logged
warning, a `loadFn` call, and delegation to a custom `mutateFn`. -/
inductive Event where
  | notify (v : JSVal) : Event
  | save (v : JSVal) : Event
  | warn (msg : String) : Event
  | loadCall : Event
  | customMutate (mutation : List (String × JSVal)) : Event

/-- Options record of `createModel` (`ModelOptions<T>`): optional fields
are present or absent like JS object properties; the adapter functions are
modelled at the call boundary (see the header comment). -/
structure ModelOptions where
  allowUndefinedData : Option Bool := none
  loadOnCreate : Option Bool := none
  saveFn : Option Unit := none
  loadFn : Option JSVal := none
  mutateFn : Option Unit := none
  onInitialized : Option Unit := none

/-- Truthiness of a possibly-absent JS boolean option (`opts.flag` used in
a condition: an absent property reads as `undefined`, which is falsy). -/
def optTruthy : Option Bool → Bool
  | none => false
  | some b => b

/-- `DEFAULT_OPTS` from the source: its own properties are exactly
`allowUndefinedData: false` and `loadOnCreate: true`. -/
def DEFAULT_OPTS : ModelOptions :=
  { allowUndefinedData := some false, loadOnCreate := some true }

/-- The options merge in `createModel`:
`options ? { ...options, ...DEFAULT_OPTS } : DEFAULT_OPTS`.
The spread of `DEFAULT_OPTS` comes second, so its two own properties
overwrite the caller's values unconditionally. -/
def mergeOpts : Option ModelOptions → ModelOptions
  | none => DEFAULT_OPTS
  | some o => { o with allowUndefinedData := some false, loadOnCreate := some true }

/-- State of one container: the svelte store's current value (`writable<T>()`
starts with `undefined`) and the trace of observable events so far. -/
structure MState where
  value : JSVal
  events : List Event

/-- The Observable Primitive's `set`: replace the value and synchronously
notify subscribers with it. -/
def storeSet (st : MState) (v : JSVal) : MState :=
  { value := v, events := st.events ++ [Event.notify v] }

/-- Warning text of `cLoad` without a `loadFn`. -/
def loadWarnMsg : String :=
  "[MODEL] Trying to load model data without a 'loadFn' option!"

/-- Warning text of `cSet` rejecting empty data. -/
def setWarnMsg : String :=
  "[MODEL] Trying to set undefined data without 'allowUndefinedData = true' option!"

/-- Warning text of the default `mutate` on an unknown key `k`. -/
def mutateWarnMsg (k : String) : String :=
  "[MODEL] Trying to mutate model with unknown key '" ++ k ++ "'!"

/-- `cLoad`: warn and return `undefined` when no `loadFn` is configured;
otherwise call the load function (recorded as a `loadCall` event) and, if
the loaded data is truthy, `set` it into the store and return it, else
return `undefined` (modelled as `none`) without touching the store. -/
def cLoad (opts : ModelOptions) (st : MState) : MState × Option JSVal :=
  match opts.loadFn with
  | none => ({ st with events := st.events ++ [Event.warn loadWarnMsg] }, none)
  | some r =>
    let st1 : MState := { st with events := st.events ++ [Event.loadCall] }
    if truthy r then (storeSet st1 r, some r) else (st1, none)

/-- `cSet`: reject falsy data (warn, no store change, no save) unless
`allowUndefinedData` is truthy; otherwise `set` the store (notifying
subscribers) and then call `saveFn` with the new data if configured. -/
def cSet (opts : ModelOptions) (st : MState) (data : JSVal) : MState :=
  if !truthy data && !optTruthy opts.allowUndefinedData then
    { st with events := st.events ++ [Event.warn setWarnMsg] }
  else
    let st1 := storeSet st data
    if opts.saveFn.isSome then
      { st1 with events := st1.events ++ [Event.save data] }
    else st1

/-- `cUpdate`: svelte's `update` runs the callback on the current value and
`set`s the result.  Inside the callback the source first applies the
updater, then calls `saveFn` with the new value; the store commit and
subscriber notification happen after the callback returns. -/
def cUpdate (opts : ModelOptions) (st : MState) (updater : JSVal → JSVal) : MState :=
  let v := updater st.value
  let st1 :=
    if opts.saveFn.isSome then { st with events := st.events ++ [Event.save v] }
    else st
  storeSet st1 v

/-- The `Object.keys(mutation).forEach` loop of the default `mutate` path,
run against the current value `v`: for each key in order, if `k in v`
(throwing a TypeError when `v` is not an object) overwrite `v[k]`,
otherwise log a warning and skip the key.  Returns the resulting value and
the warnings emitted. -/
def mutateKeys : JSVal → List (String × JSVal) → Except String (JSVal × List Event)
  | v, [] => .ok (v, [])
  | v, (k, x) :: rest =>
    match jsHasKey v k with
    | .error e => .error e
    | .ok true => mutateKeys (jsSetKey v k x) rest
    | .ok false =>
      (mutateKeys v rest).map fun p => (p.1, Event.warn (mutateWarnMsg k) :: p.2)

/-- `mutate`: with a custom `mutateFn` configured, delegate to it with the
mutation object and return (no store access, no save).  Otherwise run the
key loop inside svelte's `update`, call `saveFn` with the merged value,
and commit it; a TypeError thrown by the loop propagates and nothing is
committed. -/
def mutate (opts : ModelOptions) (st : MState) (mutation : List (String × JSVal)) :
    Except String MState :=
  if opts.mutateFn.isSome then
    .ok { st with events := st.events ++ [Event.customMutate mutation] }
  else
    match mutateKeys st.value mutation with
    | .error e => .error e
    | .ok (v, evs) =>
      let st1 : MState := { st with events := st.events ++ evs }
      let st2 :=
        if opts.saveFn.isSome then { st1 with events := st1.events ++ [Event.save v] }
        else st1
      .ok (storeSet st2 v)

/-- The `INITIALIZED` promise executor: with truthy `loadOnCreate` and a
`loadFn`, await `cLoad` and resolve with the loaded value if truthy, else
reject with `undefined`; otherwise resolve immediately with `{}`. -/
def initModel (opts : ModelOptions) (st : MState) : MState × Except Unit JSVal :=
  if optTruthy opts.loadOnCreate && opts.loadFn.isSome then
    match cLoad opts st with
    | (st', some l) => (st', .ok l)
    | (st', none) => (st', .error ())
  else (st, .ok (.obj []))

/-- Result of `createModel`: the merged options closed over by the returned
operations, the container state after construction, and the settled
`initialized` promise. -/
structure ModelRes where
  opts : ModelOptions
  state : MState
  initialized : Except Unit JSVal

/-- `createModel`: merge the options, create the empty svelte store
(`writable<T>()` holds `undefined`), and run the initialization lifecycle. -/
def createModel (options : Option ModelOptions) : ModelRes :=
  let opts := mergeOpts options
  let st0 : MState := { value := .undef, events := [] }
  let (st, init) := initModel opts st0
  { opts := opts, state := st, initialized := init }

/-- The exported `get`: an async snapshot of the current store value. -/
def modelGet (st : MState) : JSVal :=
  st.value

/-- One consumer-facing write operation (plus explicit `load`), for stating
invariants over operation sequences. -/
inductive Op where
  | oset (v : JSVal) : Op
  | oupdate (f : JSVal → JSVal) : Op
  | omutate (mutation : List (String × JSVal)) : Op
  | oload : Op

/-- Whether an operation is an `update` call. -/
def Op.isUpdate : Op → Bool
  | .oupdate _ => true
  | _ => false

/-- Run one operation against the container; an exception thrown by
`mutate` propagates to the caller and leaves the store state unchanged. -/
def runOp (opts : ModelOptions) (st : MState) : Op → MState
  | .oset v => cSet opts st v
  | .oupdate f => cUpdate opts st f
  | .omutate m =>
    match mutate opts st m with
    | .ok st' => st'
    | .error _ => st
  | .oload => (cLoad opts st).1

/-- Run a sequence of operations in order. -/
def runOps (opts : ModelOptions) (st : MState) (ops : List Op) : MState :=
  ops.foldl (runOp opts) st

/-- The model-value invariant claimed for containers without
`allowUndefinedData`: the store holds either the initial `undefined` that
`writable<T>()` starts with (no value committed yet) or a truthy value. -/
def populatedOrInit (v : JSVal) : Prop :=
  v = JSVal.undef ∨ truthy v = true

/-- Specification-level description of the value computed by the default
mutation loop on an object: fold the descriptor entries over the field
list, assigning keys that exist and skipping the rest.  Used to state what
`mutateKeys` computes (proved in `mutateKeys_obj_eq`). -/
def applyMut (fs : List (String × JSVal)) : List (String × JSVal) → List (String × JSVal)
  | [] => fs
  | (k, x) :: rest =>
    if hasField fs k then applyMut (setField fs k x) rest
    else applyMut fs rest

/-- Specification-level description of the warnings emitted by the default
mutation loop on an object: one warning per descriptor key missing from the
current value, in descriptor order. -/
def mutWarns (fs : List (String × JSVal)) (mu : List (String × JSVal)) : List Event :=
  ((mu.map Prod.fst).filter fun k => !hasField fs k).map fun k => Event.warn (mutateWarnMsg k)

/-! ### Helper lemmas about the options merge and field operations -/

theorem mergeOpts_allowUndefinedData (o : Option ModelOptions) :
    (mergeOpts o).allowUndefinedData = some false := by
  cases o <;> rfl

theorem mergeOpts_loadOnCreate (o : Option ModelOptions) :
    (mergeOpts o).loadOnCreate = some true := by
  cases o <;> rfl

theorem mergeOpts_saveFn (o : ModelOptions) : (mergeOpts (some o)).saveFn = o.saveFn := rfl

theorem mergeOpts_loadFn (o : ModelOptions) : (mergeOpts (some o)).loadFn = o.loadFn := rfl

theorem mergeOpts_mutateFn (o : ModelOptions) : (mergeOpts (some o)).mutateFn = o.mutateFn := rfl

theorem hasField_false_iff (fs : List (String × JSVal)) (k : String) :
    hasField fs k = false ↔ getField fs k = none := by
  unfold hasField
  cases getField fs k <;> simp

theorem setField_keys (fs : List (String × JSVal)) (k : String) (x : JSVal) :
    (setField fs k x).map Prod.fst = fs.map Prod.fst := by
  induction fs with
  | nil => rfl
  | cons p rest ih =>
    obtain ⟨a, b⟩ := p
    by_cases h : a = k <;> simp [setField, h, ih]

theorem getField_setField_self (fs : List (String × JSVal)) (k : String) (x : JSVal)
    (h : hasField fs k = true) : getField (setField fs k x) k = some x := by
  induction fs with
  | nil => simp [hasField, getField] at h
  | cons p rest ih =>
    obtain ⟨a, b⟩ := p
    by_cases hak : a = k
    · simp [setField, getField, hak]
    · simp only [hasField, getField, if_neg hak] at h
      simp [setField, getField, if_neg hak, ih h]

theorem getField_setField_ne (fs : List (String × JSVal)) (k k' : String) (x : JSVal)
    (h : k' ≠ k) : getField (setField fs k x) k' = getField fs k' := by
  induction fs with
  | nil => rfl
  | cons p rest ih =>
    obtain ⟨a, b⟩ := p
    by_cases hak : a = k
    · subst hak
      have hak' : ¬ a = k' := fun hh => h hh.symm
      simp [setField, getField, hak']
    · by_cases hak' : a = k' <;> simp [setField, getField, hak, hak', h, ih]

theorem getField_setField_none (fs : List (String × JSVal)) (k : String) (x : JSVal)
    (h : getField fs k = none) : getField (setField fs k x) k = none := by
  induction fs with
  | nil => rfl
  | cons p rest ih =>
    obtain ⟨a, b⟩ := p
    by_cases hak : a = k
    · simp [getField, hak] at h
    · simp only [getField, if_neg hak] at h
      simp [setField, getField, if_neg hak, ih h]

theorem hasField_setField (fs : List (String × JSVal)) (k k' : String) (x : JSVal) :
    hasField (setField fs k x) k' = hasField fs k' := by
  by_cases h : k' = k
  · subst h
    unfold hasField
    cases hh : getField fs k'
    · rw [getField_setField_none fs k' x hh]
    · rw [getField_setField_self fs k' x (by simp [hasField, hh])]
      simp
  · unfold hasField
    rw [getField_setField_ne fs k k' x h]

theorem getField_eq_none_of_not_mem (fs : List (String × JSVal)) (k : String)
    (h : k ∉ fs.map Prod.fst) : getField fs k = none := by
  induction fs with
  | nil => rfl
  | cons p rest ih =>
    obtain ⟨a, b⟩ := p
    simp only [List.map_cons, List.mem_cons] at h
    push_neg at h
    have h1 : ¬ a = k := fun hh => h.1 hh.symm
    simp [getField, h1, ih h.2]

/-! ### The default mutation loop on an object value -/

theorem mutWarns_nil (fs : List (String × JSVal)) : mutWarns fs [] = [] := rfl

theorem mutWarns_cons_has (fs rest : List (String × JSVal)) (k : String) (x : JSVal)
    (h : hasField fs k = true) :
    mutWarns fs ((k, x) :: rest) = mutWarns fs rest := by
  simp [mutWarns, h]

theorem mutWarns_cons_not_has (fs rest : List (String × JSVal)) (k : String) (x : JSVal)
    (h : hasField fs k = false) :
    mutWarns fs ((k, x) :: rest) = Event.warn (mutateWarnMsg k) :: mutWarns fs rest := by
  simp [mutWarns, h]

theorem mutWarns_setField (fs mu : List (String × JSVal)) (k : String) (x : JSVal) :
    mutWarns (setField fs k x) mu = mutWarns fs mu := by
  unfold mutWarns
  have : (fun k' => !hasField (setField fs k x) k') = fun k' => !hasField fs k' := by
    funext k'
    rw [hasField_setField]
  rw [this]

/-- The forEach loop of the default `mutate`, run on an object, never
throws: it computes `applyMut` and emits `mutWarns`. -/
theorem mutateKeys_obj_eq (mu : List (String × JSVal)) :
    ∀ fs : List (String × JSVal),
      mutateKeys (.obj fs) mu = .ok (.obj (applyMut fs mu), mutWarns fs mu) := by
  induction mu with
  | nil => intro fs; rfl
  | cons p rest ih =>
    intro fs
    obtain ⟨k, x⟩ := p
    cases h : hasField fs k
    · simp [mutateKeys, jsHasKey, h, ih fs, Except.map, applyMut,
        mutWarns_cons_not_has fs rest k x h]
    · simp [mutateKeys, jsHasKey, h, jsSetKey, ih (setField fs k x), applyMut,
        mutWarns_setField, mutWarns_cons_has fs rest k x h]

theorem applyMut_keys (mu : List (String × JSVal)) :
    ∀ fs : List (String × JSVal), (applyMut fs mu).map Prod.fst = fs.map Prod.fst := by
  induction mu with
  | nil => intro fs; rfl
  | cons p rest ih =>
    intro fs
    obtain ⟨k, x⟩ := p
    cases h : hasField fs k
    · simp [applyMut, h, ih fs]
    · simp [applyMut, h, ih (setField fs k x), setField_keys]

theorem applyMut_hasField (mu : List (String × JSVal)) :
    ∀ (fs : List (String × JSVal)) (k : String),
      hasField (applyMut fs mu) k = hasField fs k := by
  induction mu with
  | nil => intro fs k; rfl
  | cons p rest ih =>
    intro fs k
    obtain ⟨k0, x0⟩ := p
    cases h : hasField fs k0
    · simp [applyMut, h, ih fs]
    · simp [applyMut, h, ih (setField fs k0 x0), hasField_setField]

theorem applyMut_getField_none (mu : List (String × JSVal)) :
    ∀ (fs : List (String × JSVal)) (k : String), getField mu k = none →
      getField (applyMut fs mu) k = getField fs k := by
  induction mu with
  | nil => intro fs k _; rfl
  | cons p rest ih =>
    intro fs k hmu
    obtain ⟨k0, x0⟩ := p
    have hk0 : ¬ k0 = k := by
      intro hh
      simp [getField, hh] at hmu
    rw [getField, if_neg hk0] at hmu
    cases h : hasField fs k0
    · simp [applyMut, h, ih fs k hmu]
    · simp [applyMut, h, ih (setField fs k0 x0) k hmu,
        getField_setField_ne fs k0 k x0 (fun hh => hk0 hh.symm)]

theorem applyMut_getField_some (mu : List (String × JSVal)) :
    ∀ (fs : List (String × JSVal)) (k : String) (x : JSVal),
      (mu.map Prod.fst).Nodup → getField mu k = some x → hasField fs k = true →
      getField (applyMut fs mu) k = some x := by
  induction mu with
  | nil => intro fs k x _ hmu; simp [getField] at hmu
  | cons p rest ih =>
    intro fs k x hnd hmu hfs
    obtain ⟨k0, x0⟩ := p
    simp only [List.map_cons, List.nodup_cons] at hnd
    by_cases hk0 : k0 = k
    · subst hk0
      rw [getField, if_pos rfl] at hmu
      cases hmu
      rw [applyMut, if_pos hfs]
      have hrest : getField rest k0 = none :=
        getField_eq_none_of_not_mem rest k0 hnd.1
      rw [applyMut_getField_none rest (setField fs k0 x) k0 hrest]
      exact getField_setField_self fs k0 x hfs
    · rw [getField, if_neg hk0] at hmu
      cases h : hasField fs k0
      · rw [applyMut, h]
        simp only [Bool.false_eq_true, if_false]
        exact ih fs k x hnd.2 hmu hfs
      · rw [applyMut, if_pos h]
        refine ih (setField fs k0 x0) k x hnd.2 hmu ?_
        rw [hasField_setField]
        exact hfs

theorem applyMut_getField_not_has (mu fs : List (String × JSVal)) (k : String)
    (h : hasField fs k = false) : getField (applyMut fs mu) k = none := by
  have hh : hasField (applyMut fs mu) k = false := by
    rw [applyMut_hasField]
    exact h
  exact (hasField_false_iff _ _).1 hh

theorem mutateKeys_not_obj (v : JSVal) (mu : List (String × JSVal)) (v' : JSVal)
    (evs : List Event) (hv : ∀ fs, v ≠ JSVal.obj fs)
    (h : mutateKeys v mu = .ok (v', evs)) : v' = v ∧ mu = [] := by
  cases mu with
  | nil =>
    refine ⟨?_, rfl⟩
    simp only [mutateKeys] at h
    cases h
    rfl
  | cons p rest =>
    obtain ⟨k, x⟩ := p
    exfalso
    cases v with
    | obj fs => exact hv fs rfl
    | undef => simp [mutateKeys, jsHasKey] at h
    | bool b => simp [mutateKeys, jsHasKey] at h
    | num n => simp [mutateKeys, jsHasKey] at h
    | str s => simp [mutateKeys, jsHasKey] at h

/-! ### Claim theorems -/

/-- Claim C1 (code bug): constructing with `loadOnCreate := false` and a
load function does NOT skip the load.  `DEFAULT_OPTS` is spread after the
caller's options, so the merged `loadOnCreate` is `some true` and
initialization invokes the load function (a `loadCall` event) and settles
on its result instead of resolving immediately with the placeholder. -/
theorem loadOnCreate_false_still_invokes_load :
    (createModel (some { loadOnCreate := some false, loadFn := some (JSVal.obj [("a", JSVal.num 1)]) })).opts.loadOnCreate = some true ∧
    (createModel (some { loadOnCreate := some false, loadFn := some (JSVal.obj [("a", JSVal.num 1)]) })).state.events
      = [Event.loadCall, Event.notify (JSVal.obj [("a", JSVal.num 1)])] ∧
    (createModel (some { loadOnCreate := some false, loadFn := some (JSVal.obj [("a", JSVal.num 1)]) })).initialized
      = Except.ok (JSVal.obj [("a", JSVal.num 1)]) :=
  ⟨rfl, rfl, rfl⟩

/-- Claim C2 (code bug): constructing with `allowUndefinedData := true`
does not permit committing an empty value.  The merge overrides the option
back to `some false`, so `set undefined` is the warning no-op: the store
keeps its value and neither a notification nor a save happens. -/
theorem allowUndefinedData_true_overridden :
    (createModel (some { allowUndefinedData := some true, saveFn := some () })).opts.allowUndefinedData = some false ∧
    cSet (createModel (some { allowUndefinedData := some true, saveFn := some () })).opts
        (createModel (some { allowUndefinedData := some true, saveFn := some () })).state
        JSVal.undef
      = { value := JSVal.undef, events := [Event.warn setWarnMsg] } :=
  ⟨rfl, rfl⟩

/-- Claim C5 (confirmed): on any constructed container (the merged options
always carry `allowUndefinedData = some false`), `set` of a falsy value is
a no-op that only logs the warning: the value is unchanged, no subscriber
is notified, no save happens, and no exception is thrown (`cSet` is a
total function into `MState`). -/
theorem set_empty_is_noop_with_warning (options : Option ModelOptions) (st : MState)
    (v : JSVal) (hv : truthy v = false) :
    cSet (mergeOpts options) st v =
      { st with events := st.events ++ [Event.warn setWarnMsg] } := by
  simp [cSet, hv, mergeOpts_allowUndefinedData, optTruthy]

/-- Witness for `set_empty_is_noop_with_warning` at `v = 0` on a fresh
default container. -/
theorem set_empty_is_noop_with_warning_witness :
    truthy (JSVal.num 0) = false ∧
    cSet (mergeOpts none) { value := JSVal.undef, events := [] } (JSVal.num 0) =
      { value := JSVal.undef, events := [Event.warn setWarnMsg] } :=
  ⟨rfl, set_empty_is_noop_with_warning none { value := JSVal.undef, events := [] }
    (JSVal.num 0) rfl⟩

/-- Claim C6 amended: `update f` commits `f current` — but the source calls
`saveFn` with the new value inside the svelte update callback, before the
store commit, so the save call precedes the subscriber notification. -/
theorem update_commits_transform_save_then_notify (opts : ModelOptions) (st : MState)
    (f : JSVal → JSVal) :
    cUpdate opts st f =
      { value := f st.value,
        events := st.events
          ++ (if opts.saveFn.isSome then [Event.save (f st.value)] else [])
          ++ [Event.notify (f st.value)] } := by
  by_cases h : opts.saveFn.isSome <;> simp [cUpdate, storeSet, h]

/-- Claim C6 counterexample: with a save function configured, `update` on a
container holding `1` with the constant transform to `2` produces the
trace `[save 2, notify 2]`: there are no positions `i < j` with the
notification of the new value at `i` and the save call at `j`, so
subscribers are NOT notified before the save function is invoked. -/
theorem update_notify_not_before_save_cex :
    (cUpdate (mergeOpts (some { saveFn := some () }))
        { value := JSVal.num 1, events := [] } (fun _ => JSVal.num 2)).events
      = [Event.save (JSVal.num 2), Event.notify (JSVal.num 2)] ∧
    ¬ ∃ i j : Nat, i < j ∧
        (cUpdate (mergeOpts (some { saveFn := some () }))
            { value := JSVal.num 1, events := [] } (fun _ => JSVal.num 2)).events[i]?
          = some (Event.notify (JSVal.num 2)) ∧
        (cUpdate (mergeOpts (some { saveFn := some () }))
            { value := JSVal.num 1, events := [] } (fun _ => JSVal.num 2)).events[j]?
          = some (Event.save (JSVal.num 2)) := by
  refine ⟨rfl, ?_⟩
  rintro ⟨i, j, hij, hi, hj⟩
  rw [show (cUpdate (mergeOpts (some { saveFn := some () }))
      { value := JSVal.num 1, events := [] } (fun _ => JSVal.num 2)).events
      = [Event.save (JSVal.num 2), Event.notify (JSVal.num 2)] from rfl] at hi hj
  rcases i with _ | _ | i
  · simp at hi
  · rcases j with _ | _ | j
    · omega
    · omega
    · simp [List.getElem?_cons_succ] at hj
  · simp [List.getElem?_cons_succ] at hi

/-- Claim C8 (confirmed): with a custom `mutateFn` configured, `mutate`
delegates to it (recorded as a `customMutate` event with the descriptor)
and returns: the store value is untouched and the core performs no save. -/
theorem mutate_custom_delegates_exclusively (opts : ModelOptions) (st : MState)
    (mu : List (String × JSVal)) (h : opts.mutateFn = some ()) :
    mutate opts st mu =
      .ok { st with events := st.events ++ [Event.customMutate mu] } := by
  simp [mutate, h]

/-- Witness for `mutate_custom_delegates_exclusively` on a constructed
container with both `mutateFn` and `saveFn` configured. -/
theorem mutate_custom_delegates_exclusively_witness :
    (mergeOpts (some { mutateFn := some (), saveFn := some () })).mutateFn = some () ∧
    mutate (mergeOpts (some { mutateFn := some (), saveFn := some () }))
        { value := JSVal.obj [("x", JSVal.num 1)], events := [] } [("y", JSVal.num 2)]
      = .ok { value := JSVal.obj [("x", JSVal.num 1)],
              events := [Event.customMutate [("y", JSVal.num 2)]] } :=
  ⟨rfl, mutate_custom_delegates_exclusively
    (mergeOpts (some { mutateFn := some (), saveFn := some () }))
    { value := JSVal.obj [("x", JSVal.num 1)], events := [] } [("y", JSVal.num 2)] rfl⟩

/-- Claim C10 (confirmed): a non-empty mutation descriptor passed to the
default `mutate` while the store still holds its initial `undefined` makes
the `k in v` check throw a TypeError, which propagates (no warning
degradation, nothing committed). -/
theorem mutate_on_absent_value_throws (opts : ModelOptions) (st : MState)
    (k : String) (x : JSVal) (rest : List (String × JSVal))
    (hm : opts.mutateFn = none) (hv : st.value = JSVal.undef) :
    mutate opts st ((k, x) :: rest) = .error inOpTypeError := by
  simp [mutate, hm, hv, mutateKeys, jsHasKey]

/-- Witness for `mutate_on_absent_value_throws` on a freshly constructed
default container (no load function, so no value was ever committed). -/
theorem mutate_on_absent_value_throws_witness :
    (createModel none).opts.mutateFn = none ∧
    (createModel none).state.value = JSVal.undef ∧
    mutate (createModel none).opts (createModel none).state [("a", JSVal.num 1)]
      = .error inOpTypeError :=
  ⟨rfl, rfl, mutate_on_absent_value_throws (createModel none).opts (createModel none).state
    "a" (JSVal.num 1) [] rfl rfl⟩

/-- Claim C4 (confirmed): with a save function configured, every committed
change performs exactly one save call with the post-commit value (the
value the store then holds): `set` of truthy data yields the trace
`[notify v, save v]` (and the rejected falsy `set` performs no save at
all); `update` yields `[save v, notify v]` with `v` the new value; a
default `mutate` that commits yields the warnings followed by
`[save v, notify v]` with `v` the merged value. -/
theorem save_called_once_with_postcommit_value (options : ModelOptions) (st : MState)
    (data : JSVal) (f : JSVal → JSVal) (mu : List (String × JSVal))
    (hs : options.saveFn = some ()) :
    (truthy data = true →
      cSet (mergeOpts (some options)) st data =
        { value := data, events := st.events ++ [Event.notify data, Event.save data] }) ∧
    (truthy data = false →
      cSet (mergeOpts (some options)) st data =
        { st with events := st.events ++ [Event.warn setWarnMsg] }) ∧
    cUpdate (mergeOpts (some options)) st f =
      { value := f st.value,
        events := st.events ++ [Event.save (f st.value), Event.notify (f st.value)] } ∧
    (options.mutateFn = none → ∀ v evs, mutateKeys st.value mu = .ok (v, evs) →
      mutate (mergeOpts (some options)) st mu =
        .ok { value := v, events := st.events ++ evs ++ [Event.save v, Event.notify v] }) := by
  have hs' : (mergeOpts (some options)).saveFn = some () := by
    rw [mergeOpts_saveFn]
    exact hs
  refine ⟨?_, ?_, ?_, ?_⟩
  · intro htr
    simp [cSet, htr, hs', storeSet]
  · intro htr
    simp [cSet, htr, mergeOpts_allowUndefinedData, optTruthy]
  · simp [cUpdate, hs', storeSet]
  · intro hm v evs hok
    have hm' : (mergeOpts (some options)).mutateFn = none := by
      rw [mergeOpts_mutateFn]
      exact hm
    simp [mutate, hm', hok, hs', storeSet]

/-- Witness for `save_called_once_with_postcommit_value`: on a container
holding `{x: 1}` with a save function configured, `update` with the
identity transform produces exactly one save, carrying the post-commit
value, before the notification. -/
theorem save_called_once_with_postcommit_value_witness :
    (({ saveFn := some () } : ModelOptions)).saveFn = some () ∧
    cUpdate (mergeOpts (some { saveFn := some () }))
        { value := JSVal.obj [("x", JSVal.num 1)], events := [] } (fun v => v) =
      { value := JSVal.obj [("x", JSVal.num 1)],
        events := [Event.save (JSVal.obj [("x", JSVal.num 1)]),
                   Event.notify (JSVal.obj [("x", JSVal.num 1)])] } :=
  ⟨rfl, (save_called_once_with_postcommit_value { saveFn := some () }
    { value := JSVal.obj [("x", JSVal.num 1)], events := [] }
    (JSVal.num 5) (fun v => v) [("x", JSVal.num 2)] rfl).2.2.1⟩

/-- Claim C9 (confirmed): with a load function configured (auto-load is
always on after the merge), initialization calls it once; a truthy result
resolves the readiness promise with it and commits it (the store notifies
it and holds it); a falsy result rejects the promise and nothing is
committed (the store still holds the initial `undefined` and the trace
shows only the load call). -/
theorem autoload_resolves_or_rejects (options : ModelOptions) (r : JSVal)
    (h : options.loadFn = some r) :
    (truthy r = true →
      (createModel (some options)).initialized = .ok r ∧
      (createModel (some options)).state.value = r ∧
      (createModel (some options)).state.events = [Event.loadCall, Event.notify r]) ∧
    (truthy r = false →
      (createModel (some options)).initialized = .error () ∧
      (createModel (some options)).state.value = JSVal.undef ∧
      (createModel (some options)).state.events = [Event.loadCall]) := by
  have h' : (mergeOpts (some options)).loadFn = some r := by
    rw [mergeOpts_loadFn]
    exact h
  constructor
  · intro htr
    refine ⟨?_, ?_, ?_⟩ <;>
      simp [createModel, initModel, cLoad, h', htr, mergeOpts_loadOnCreate, optTruthy, storeSet]
  · intro htr
    refine ⟨?_, ?_, ?_⟩ <;>
      simp [createModel, initModel, cLoad, h', htr, mergeOpts_loadOnCreate, optTruthy, storeSet]

/-- Witness for `autoload_resolves_or_rejects` with a load function
resolving to `{a: 1}`. -/
theorem autoload_resolves_or_rejects_witness :
    (({ loadFn := some (JSVal.obj [("a", JSVal.num 1)]) } : ModelOptions)).loadFn
      = some (JSVal.obj [("a", JSVal.num 1)]) ∧
    (createModel (some { loadFn := some (JSVal.obj [("a", JSVal.num 1)]) })).initialized
      = .ok (JSVal.obj [("a", JSVal.num 1)]) ∧
    (createModel (some { loadFn := some (JSVal.obj [("a", JSVal.num 1)]) })).state.value
      = JSVal.obj [("a", JSVal.num 1)] ∧
    (createModel (some { loadFn := some (JSVal.obj [("a", JSVal.num 1)]) })).state.events
      = [Event.loadCall, Event.notify (JSVal.obj [("a", JSVal.num 1)])] :=
  ⟨rfl, (autoload_resolves_or_rejects { loadFn := some (JSVal.obj [("a", JSVal.num 1)]) }
    (JSVal.obj [("a", JSVal.num 1)]) rfl).1 rfl⟩

/-- Claim C7 (confirmed): on a container with no custom merge function, a
populated object value and a save function, default `mutate` succeeds and
commits `applyMut fs mu`: the result has exactly the keys of the current
value; every descriptor key that exists on the current value is
overwritten with the descriptor's value; keys absent from the descriptor
keep their old value; descriptor keys missing from the current value are
skipped with one warning each (in order) and never appear on the result;
the merged value is committed (notified) and passed to the save call. -/
theorem mutate_default_overwrites_existing_keys_only (opts : ModelOptions) (st : MState)
    (fs mu : List (String × JSVal))
    (hm : opts.mutateFn = none) (hs : opts.saveFn = some ())
    (hv : st.value = JSVal.obj fs) (hnd : (mu.map Prod.fst).Nodup) :
    mutate opts st mu =
      .ok { value := JSVal.obj (applyMut fs mu),
            events := st.events ++ mutWarns fs mu
              ++ [Event.save (JSVal.obj (applyMut fs mu)),
                  Event.notify (JSVal.obj (applyMut fs mu))] } ∧
    (applyMut fs mu).map Prod.fst = fs.map Prod.fst ∧
    (∀ k x, getField mu k = some x → hasField fs k = true →
      getField (applyMut fs mu) k = some x) ∧
    (∀ k, getField mu k = none → getField (applyMut fs mu) k = getField fs k) ∧
    (∀ k, hasField fs k = false → getField (applyMut fs mu) k = none) := by
  refine ⟨?_, applyMut_keys mu fs, ?_, ?_, ?_⟩
  · simp [mutate, hm, hv, mutateKeys_obj_eq mu fs, hs, storeSet]
  · intro k x hmu hfs
    exact applyMut_getField_some mu fs k x hnd hmu hfs
  · intro k hmu
    exact applyMut_getField_none mu fs k hmu
  · intro k hfs
    exact applyMut_getField_not_has mu fs k hfs

/-- Witness for `mutate_default_overwrites_existing_keys_only`: the spec's
concrete scenario, `mutate {x: 2, y: 9}` on a default container (with a
save function) holding `{x: 1}`: `x` is overwritten, `y` is dropped with a
warning, and the merged `{x: 2}` is saved and notified. -/
theorem mutate_default_overwrites_existing_keys_only_witness :
    (mergeOpts (some { saveFn := some () })).mutateFn = none ∧
    (mergeOpts (some { saveFn := some () })).saveFn = some () ∧
    ([("x", JSVal.num 2), ("y", JSVal.num 9)].map
      (Prod.fst (α := String) (β := JSVal))).Nodup ∧
    mutate (mergeOpts (some { saveFn := some () }))
        { value := JSVal.obj [("x", JSVal.num 1)], events := [] }
        [("x", JSVal.num 2), ("y", JSVal.num 9)] =
      .ok { value := JSVal.obj [("x", JSVal.num 2)],
            events := [Event.warn (mutateWarnMsg "y"),
                       Event.save (JSVal.obj [("x", JSVal.num 2)]),
                       Event.notify (JSVal.obj [("x", JSVal.num 2)])] } :=
  ⟨rfl, rfl, by decide,
    (mutate_default_overwrites_existing_keys_only (mergeOpts (some { saveFn := some () }))
      { value := JSVal.obj [("x", JSVal.num 1)], events := [] }
      [("x", JSVal.num 1)] [("x", JSVal.num 2), ("y", JSVal.num 9)]
      rfl rfl rfl (by decide)).1⟩

/-! ### The no-empty-value invariant (claim C3) -/

theorem cSet_populatedOrInit (opts : ModelOptions) (st : MState) (data : JSVal)
    (ha : optTruthy opts.allowUndefinedData = false)
    (hp : populatedOrInit st.value) : populatedOrInit (cSet opts st data).value := by
  cases htr : truthy data
  · simp only [cSet, htr, ha, Bool.not_false, Bool.and_self, if_true]
    exact hp
  · right
    simp only [cSet, htr, ha, Bool.not_true, Bool.false_and, Bool.false_eq_true, if_false]
    cases h : opts.saveFn.isSome <;> simp [h, storeSet, htr]

theorem cLoad_populatedOrInit (opts : ModelOptions) (st : MState)
    (hp : populatedOrInit st.value) : populatedOrInit ((cLoad opts st).1).value := by
  cases hl : opts.loadFn with
  | none => simpa [cLoad, hl] using hp
  | some r =>
    cases htr : truthy r
    · simpa [cLoad, hl, htr] using hp
    · right
      simp [cLoad, hl, htr, storeSet]

theorem mutate_populatedOrInit (opts : ModelOptions) (st : MState)
    (mu : List (String × JSVal)) (st' : MState)
    (hp : populatedOrInit st.value) (h : mutate opts st mu = .ok st') :
    populatedOrInit st'.value := by
  by_cases hm : opts.mutateFn.isSome
  · simp only [mutate, hm, if_true, Except.ok.injEq] at h
    rw [← h]
    exact hp
  · simp only [mutate, hm, Bool.false_eq_true, if_false] at h
    cases hv : st.value with
    | obj fs =>
      rw [hv, mutateKeys_obj_eq mu fs] at h
      simp only [Except.ok.injEq] at h
      rw [← h]
      right
      cases hsv : opts.saveFn.isSome <;> simp [hsv, storeSet, truthy]
    | undef =>
      rw [hv] at h
      cases hmk : mutateKeys JSVal.undef mu with
      | error e => rw [hmk] at h; cases h
      | ok p =>
        obtain ⟨v', evs⟩ := p
        obtain ⟨hv', _⟩ := mutateKeys_not_obj JSVal.undef mu v' evs (by intro fs hh; cases hh) hmk
        rw [hmk] at h
        simp only [Except.ok.injEq] at h
        rw [← h]
        left
        cases hsv : opts.saveFn.isSome <;> simp [hsv, storeSet, hv']
    | bool b =>
      rw [hv] at h
      cases hmk : mutateKeys (JSVal.bool b) mu with
      | error e => rw [hmk] at h; cases h
      | ok p =>
        obtain ⟨v', evs⟩ := p
        obtain ⟨hv', _⟩ := mutateKeys_not_obj (JSVal.bool b) mu v' evs (by intro fs hh; cases hh) hmk
        rw [hmk] at h
        simp only [Except.ok.injEq] at h
        rw [← h]
        have : populatedOrInit (JSVal.bool b) := hv ▸ hp
        cases hsv : opts.saveFn.isSome <;> simpa [hsv, storeSet, hv'] using this
    | num n =>
      rw [hv] at h
      cases hmk : mutateKeys (JSVal.num n) mu with
      | error e => rw [hmk] at h; cases h
      | ok p =>
        obtain ⟨v', evs⟩ := p
        obtain ⟨hv', _⟩ := mutateKeys_not_obj (JSVal.num n) mu v' evs (by intro fs hh; cases hh) hmk
        rw [hmk] at h
        simp only [Except.ok.injEq] at h
        rw [← h]
        have : populatedOrInit (JSVal.num n) := hv ▸ hp
        cases hsv : opts.saveFn.isSome <;> simpa [hsv, storeSet, hv'] using this
    | str s =>
      rw [hv] at h
      cases hmk : mutateKeys (JSVal.str s) mu with
      | error e => rw [hmk] at h; cases h
      | ok p =>
        obtain ⟨v', evs⟩ := p
        obtain ⟨hv', _⟩ := mutateKeys_not_obj (JSVal.str s) mu v' evs (by intro fs hh; cases hh) hmk
        rw [hmk] at h
        simp only [Except.ok.injEq] at h
        rw [← h]
        have : populatedOrInit (JSVal.str s) := hv ▸ hp
        cases hsv : opts.saveFn.isSome <;> simpa [hsv, storeSet, hv'] using this

theorem runOp_populatedOrInit (opts : ModelOptions) (st : MState) (op : Op)
    (ha : optTruthy opts.allowUndefinedData = false)
    (hop : op.isUpdate = false)
    (hp : populatedOrInit st.value) : populatedOrInit (runOp opts st op).value := by
  cases op with
  | oset v => exact cSet_populatedOrInit opts st v ha hp
  | oupdate f => cases hop
  | oload => exact cLoad_populatedOrInit opts st hp
  | omutate mu =>
    cases h : mutate opts st mu with
    | ok st' =>
      have : runOp opts st (Op.omutate mu) = st' := by simp [runOp, h]
      rw [this]
      exact mutate_populatedOrInit opts st mu st' hp h
    | error e =>
      have : runOp opts st (Op.omutate mu) = st := by simp [runOp, h]
      rw [this]
      exact hp

theorem runOps_populatedOrInit (opts : ModelOptions) (ops : List Op)
    (ha : optTruthy opts.allowUndefinedData = false)
    (hops : ops.all (fun o => !o.isUpdate) = true) :
    ∀ st : MState, populatedOrInit st.value →
      populatedOrInit (runOps opts st ops).value := by
  induction ops with
  | nil => intro st hp; exact hp
  | cons op rest ih =>
    intro st hp
    simp only [List.all_cons, Bool.and_eq_true, Bool.not_eq_true'] at hops
    have h1 := runOp_populatedOrInit opts st op ha hops.1 hp
    have hops2 : rest.all (fun o => !o.isUpdate) = true := by
      simp only [List.all_eq_true, Bool.not_eq_true']
      intro o ho
      have := List.all_eq_true.1 hops.2 o ho
      simpa using this
    exact ih hops2 (runOp opts st op) h1

theorem createModel_populatedOrInit (options : Option ModelOptions) :
    populatedOrInit (createModel options).state.value := by
  cases options with
  | none => left; rfl
  | some o =>
    cases hl : o.loadFn with
    | none =>
      left
      simp [createModel, initModel, mergeOpts, hl]
    | some r =>
      cases htr : truthy r
      · left
        simp [createModel, initModel, cLoad, mergeOpts, hl, htr, optTruthy]
      · right
        simp [createModel, initModel, cLoad, mergeOpts, hl, htr, optTruthy, storeSet]

theorem mutate_truthy (opts : ModelOptions) (st : MState)
    (mu : List (String × JSVal)) (st' : MState)
    (ht : truthy st.value = true) (h : mutate opts st mu = .ok st') :
    truthy st'.value = true := by
  by_cases hm : opts.mutateFn.isSome
  · simp only [mutate, hm, if_true, Except.ok.injEq] at h
    rw [← h]
    exact ht
  · simp only [mutate, hm, Bool.false_eq_true, if_false] at h
    cases hmk : mutateKeys st.value mu with
    | error e => rw [hmk] at h; cases h
    | ok p =>
      obtain ⟨v', evs⟩ := p
      rw [hmk] at h
      simp only [Except.ok.injEq] at h
      have hval : truthy v' = true := by
        cases hv : st.value with
        | obj fs =>
          rw [hv, mutateKeys_obj_eq mu fs] at hmk
          simp only [Except.ok.injEq, Prod.mk.injEq] at hmk
          rw [← hmk.1]
          rfl
        | undef => rw [hv] at ht; cases ht
        | bool b =>
          obtain ⟨hv', _⟩ := mutateKeys_not_obj (JSVal.bool b) mu v' evs
            (by intro fs hh; cases hh) (hv ▸ hmk)
          rw [hv', ← hv]
          exact ht
        | num n =>
          obtain ⟨hv', _⟩ := mutateKeys_not_obj (JSVal.num n) mu v' evs
            (by intro fs hh; cases hh) (hv ▸ hmk)
          rw [hv', ← hv]
          exact ht
        | str s =>
          obtain ⟨hv', _⟩ := mutateKeys_not_obj (JSVal.str s) mu v' evs
            (by intro fs hh; cases hh) (hv ▸ hmk)
          rw [hv', ← hv]
          exact ht
      rw [← h]
      cases hsv : opts.saveFn.isSome <;> simp [hsv, storeSet, hval]

theorem runOp_truthy (opts : ModelOptions) (st : MState) (op : Op)
    (ha : optTruthy opts.allowUndefinedData = false)
    (hop : op.isUpdate = false)
    (ht : truthy st.value = true) : truthy (runOp opts st op).value = true := by
  cases op with
  | oset v =>
    cases htr : truthy v
    · simp only [runOp, cSet, htr, ha, Bool.not_false, Bool.and_self, if_true]
      exact ht
    · simp only [runOp, cSet, htr, ha, Bool.not_true, Bool.false_and, Bool.false_eq_true,
        if_false]
      cases hsv : opts.saveFn.isSome <;> simp [hsv, storeSet, htr]
  | oupdate f => cases hop
  | oload =>
    cases hl : opts.loadFn with
    | none => simpa [runOp, cLoad, hl] using ht
    | some r =>
      cases htr : truthy r
      · simpa [runOp, cLoad, hl, htr] using ht
      · simp [runOp, cLoad, hl, htr, storeSet]
  | omutate mu =>
    cases h : mutate opts st mu with
    | ok st' =>
      have hr : runOp opts st (Op.omutate mu) = st' := by simp [runOp, h]
      rw [hr]
      exact mutate_truthy opts st mu st' ht h
    | error e =>
      have hr : runOp opts st (Op.omutate mu) = st := by simp [runOp, h]
      rw [hr]
      exact ht

theorem runOps_truthy (opts : ModelOptions) (ops : List Op)
    (ha : optTruthy opts.allowUndefinedData = false)
    (hops : ops.all (fun o => !o.isUpdate) = true) :
    ∀ st : MState, truthy st.value = true →
      truthy (runOps opts st ops).value = true := by
  induction ops with
  | nil => intro st ht; exact ht
  | cons op rest ih =>
    intro st ht
    simp only [List.all_cons, Bool.and_eq_true, Bool.not_eq_true'] at hops
    have hops2 : rest.all (fun o => !o.isUpdate) = true := by
      simp only [List.all_eq_true, Bool.not_eq_true']
      intro o ho
      have := List.all_eq_true.1 hops.2 o ho
      simpa using this
    exact ih hops2 (runOp opts st op) (runOp_truthy opts st op ha hops.1 ht)

/-- Claim C3 amended: on any constructed container (the merged options
always force `allowUndefinedData = false`), `set`, default or custom
`mutate`, and `load` never replace a populated Model Value with an
empty/absent one: under every sequence of such operations — `update`
excluded — the store value is always either the never-populated initial
`undefined` or a truthy (populated) value, and once the value is populated
it stays populated for the rest of such a sequence.  The exclusions are
forced by the counterexample: `update` commits the transform's result
unconditionally and can replace a populated value with an empty one, and
default `mutate` with an empty descriptor while the value is still the
initial `undefined` re-commits `undefined` (notifying subscribers and
invoking save with it), though without replacing any populated value. -/
theorem no_empty_replacement_without_update (options : Option ModelOptions) (ops : List Op)
    (hops : ops.all (fun o => !o.isUpdate) = true) :
    populatedOrInit
      (runOps (createModel options).opts (createModel options).state ops).value ∧
    ∀ st : MState, truthy st.value = true →
      truthy (runOps (createModel options).opts st ops).value = true := by
  have ha : optTruthy (createModel options).opts.allowUndefinedData = false := by
    have h1 : (createModel options).opts = mergeOpts options := by
      cases options <;> rfl
    rw [h1, mergeOpts_allowUndefinedData]
    rfl
  constructor
  · exact runOps_populatedOrInit (createModel options).opts ops ha hops
      (createModel options).state (createModel_populatedOrInit options)
  · exact runOps_truthy (createModel options).opts ops ha hops

/-- Witness for `no_empty_replacement_without_update`: a sequence of a
`set`, a `mutate` and a `load` on a fresh default container keeps the
invariant, and the same sequence run from a populated value keeps the
value populated. -/
theorem no_empty_replacement_without_update_witness :
    ([Op.oset (JSVal.obj [("a", JSVal.num 1)]), Op.omutate [("a", JSVal.num 2)],
        Op.oload].all (fun o => !o.isUpdate) = true) ∧
    populatedOrInit
      (runOps (createModel none).opts (createModel none).state
        [Op.oset (JSVal.obj [("a", JSVal.num 1)]), Op.omutate [("a", JSVal.num 2)],
          Op.oload]).value ∧
    truthy
      (runOps (createModel none).opts { value := JSVal.obj [("b", JSVal.num 3)], events := [] }
        [Op.oset (JSVal.obj [("a", JSVal.num 1)]), Op.omutate [("a", JSVal.num 2)],
          Op.oload]).value = true :=
  ⟨rfl,
    (no_empty_replacement_without_update none
      [Op.oset (JSVal.obj [("a", JSVal.num 1)]), Op.omutate [("a", JSVal.num 2)],
        Op.oload] rfl).1,
    (no_empty_replacement_without_update none
      [Op.oset (JSVal.obj [("a", JSVal.num 1)]), Op.omutate [("a", JSVal.num 2)],
        Op.oload] rfl).2 { value := JSVal.obj [("b", JSVal.num 3)], events := [] } rfl⟩

/-- Claim C3 counterexample: two update-free-invariant violations on
containers whose merged options carry `allowUndefinedData = some false`.
First, after `set {a: 1}` commits a populated value, `update` with the
constant-`undefined` transform commits `undefined`: the trace shows the
notification of `undefined` and the final value is empty.  Second, with a
save function configured, default `mutate` with an empty descriptor while
the store still holds the initial `undefined` runs an empty key loop (no
`in` check, so no throw) and commits `undefined`, calling save with it:
an empty value is committed without any `update` in the sequence. -/
theorem empty_value_commits_cex :
    (createModel none).opts.allowUndefinedData = some false ∧
    (runOps (createModel none).opts (createModel none).state
        [Op.oset (JSVal.obj [("a", JSVal.num 1)]),
          Op.oupdate (fun _ => JSVal.undef)]).events
      = [Event.notify (JSVal.obj [("a", JSVal.num 1)]), Event.notify JSVal.undef] ∧
    (runOps (createModel none).opts (createModel none).state
        [Op.oset (JSVal.obj [("a", JSVal.num 1)]),
          Op.oupdate (fun _ => JSVal.undef)]).value = JSVal.undef ∧
    truthy JSVal.undef = false ∧
    (createModel (some { saveFn := some () })).opts.allowUndefinedData = some false ∧
    mutate (createModel (some { saveFn := some () })).opts
        (createModel (some { saveFn := some () })).state []
      = .ok { value := JSVal.undef,
              events := [Event.save JSVal.undef, Event.notify JSVal.undef] } :=
  ⟨rfl, rfl, rfl, rfl, rfl, rfl⟩
